import Mathlib

/-!
Verification of the go-vc-auth repository (token service over a credential
codec, plus a resilient Vault-backed remote signer).

Go strings are modelled as `List Char`, byte slices as `List Nat`, Go errors
as `String`, and external collaborators (the credential/presentation codec,
`crypto/sha256`, the HTTP transport) as explicit function parameters.  Go
runtime panics (out-of-range slice expressions, failed unchecked type
assertions) are modelled by a dedicated outcome constructor so that they are
distinguishable from returned error values.
-/

namespace GoVcAuth

/-- Result of a Go function returning `(T, error)`, extended with a
constructor for a runtime panic (which in Go is neither a value nor an
error return). -/
inductive GoOutcome (α : Type) where
  | ok (a : α)
  | err (e : String)
  | panicked (msg : String)
  deriving DecidableEq, Repr

/-- A Go slice value: Go distinguishes a nil slice from a non-nil empty
slice, so the model carries a nil flag next to the elements. -/
structure GoSlice (α : Type) where
  isNil : Bool
  elems : List α
  deriving DecidableEq, Repr

/-- The zero value `var x []T` of a Go slice: nil, no elements. -/
def goNilSlice {α : Type} : GoSlice α := ⟨true, []⟩

/-- Go `append`: the result of appending is always non-nil. -/
def goAppend {α : Type} (s : GoSlice α) (x : α) : GoSlice α :=
  ⟨false, s.elems ++ [x]⟩

/-- Go JSON values as produced by `encoding/json.Unmarshal` into
`interface⟨⟩`: strings, numbers, booleans, null, arrays and objects. -/
inductive JsonVal where
  | str (s : String)
  | num (n : Int)
  | bool (b : Bool)
  | null
  | arr (xs : List JsonVal)
  | obj (fields : List (String × JsonVal))

/-- Lookup in a Go `map[string]interface⟨⟩` obtained from JSON
unmarshalling: a missing key yields the nil interface value, modelled as
`none`. -/
def mapLookup (m : List (String × JsonVal)) (k : String) : Option JsonVal :=
  (m.find? (fun p => p.1 = k)).map (fun p => p.2)

/-- Model of Go `strings.LastIndex(s, ":")` specialised to a one-character
separator: the index of the last occurrence of `c` in `s`, or `-1` when
`c` does not occur. -/
def stringsLastIndex : List Char → Char → Int
  | [], _ => -1
  | a :: rest, c =>
    let r := stringsLastIndex rest c
    if 0 ≤ r then r + 1
    else if a = c then 0 else -1

/-- Embedding of `extractAddressFromDID` (src/unnamed/part_003): return the
substring after the last colon, or the whole string when no colon occurs. -/
def extractAddressFromDID (did : List Char) : List Char :=
  let lastColonIndex := stringsLastIndex did ':'
  if lastColonIndex = -1 then did
  else did.drop (lastColonIndex + 1).toNat

/-- When `c` does not occur in `s`, `stringsLastIndex` returns `-1`. -/
theorem stringsLastIndex_eq_neg_one (s : List Char) (c : Char)
    (h : c ∉ s) : stringsLastIndex s c = -1 := by
  induction s with
  | nil => rfl
  | cons a rest ih =>
    have hrest : c ∉ rest := fun hm => h (List.mem_cons_of_mem _ hm)
    have ha : ¬ a = c := fun hac => h (hac ▸ List.mem_cons_self a rest)
    simp [stringsLastIndex, ih hrest, ha]

/-- When `c` occurs in `s`, `stringsLastIndex` returns the position of the
last occurrence: the drop at that position starts with `c` and the tail
past it is `c`-free. -/
theorem stringsLastIndex_spec (s : List Char) (c : Char) (h : c ∈ s) :
    ∃ n : Nat, stringsLastIndex s c = (n : Int) ∧
      s.drop n = c :: s.drop (n + 1) ∧ c ∉ s.drop (n + 1) := by
  induction s with
  | nil => cases h
  | cons a rest ih =>
    by_cases hrest : c ∈ rest
    · obtain ⟨n, hn, hdrop, hnot⟩ := ih hrest
      refine ⟨n + 1, ?_, ?_, ?_⟩
      · have hge : (0 : Int) ≤ (n : Int) := Int.natCast_nonneg n
        simp only [stringsLastIndex, hn, if_pos hge]
        push_cast
        ring
      · simpa using hdrop
      · simpa using hnot
    · have hac : a = c := by
        rcases List.mem_cons.mp h with h1 | h2
        · exact h1.symm
        · exact absurd h2 hrest
      refine ⟨0, ?_, ?_, ?_⟩
      · have hneg : stringsLastIndex rest c = -1 :=
          stringsLastIndex_eq_neg_one rest c hrest
        simp [stringsLastIndex, hneg, hac]
      · simp [hac]
      · simpa using hrest

/-- C7: the signer-address derivation returns the substring after the last
colon (the input splits as a prefix, a colon, then the result, and the
result is colon-free), returns the input unchanged when no colon occurs,
and maps the two concrete spec examples as stated. -/
theorem extractAddressFromDID_spec (did : List Char) :
    (':' ∉ did → extractAddressFromDID did = did) ∧
    (':' ∈ did →
      ':' ∉ extractAddressFromDID did ∧
      ∃ pre, did = pre ++ ':' :: extractAddressFromDID did) ∧
    extractAddressFromDID ("did:nda:testnet:0xABC".toList) = "0xABC".toList ∧
    extractAddressFromDID ("noColonHere".toList) = "noColonHere".toList := by
  refine ⟨?_, ?_, by decide, by decide⟩
  · intro h
    have : stringsLastIndex did ':' = -1 := stringsLastIndex_eq_neg_one did ':' h
    simp [extractAddressFromDID, this]
  · intro h
    obtain ⟨n, hn, hdrop, hnot⟩ := stringsLastIndex_spec did ':' h
    have hneq : ¬ ((n : Int) = -1) := by omega
    have hres : extractAddressFromDID did = did.drop (n + 1) := by
      simp only [extractAddressFromDID, hn, if_neg hneq]
      norm_num
    refine ⟨by rw [hres]; exact hnot, ⟨did.take n, ?_⟩⟩
    rw [hres]
    conv_lhs => rw [← List.take_append_drop n did]
    rw [hdrop]

/-- Witness for C7 at a concrete colon-containing input. -/
theorem extractAddressFromDID_spec_witness :
    ':' ∉ extractAddressFromDID ("a:b".toList) ∧
    ∃ pre, "a:b".toList = pre ++ ':' :: extractAddressFromDID ("a:b".toList) :=
  (extractAddressFromDID_spec ("a:b".toList)).2.1 (by decide)

/-! ### Resilient remote signer (src/vault/vault.go, src/provider.go) -/

/-- Value of a hex digit character, as accepted by `encoding/hex`. -/
def hexDigitVal (c : Char) : Option Nat :=
  if '0' ≤ c ∧ c ≤ '9' then some (c.toNat - '0'.toNat)
  else if 'a' ≤ c ∧ c ≤ 'f' then some (c.toNat - 'a'.toNat + 10)
  else if 'A' ≤ c ∧ c ≤ 'F' then some (c.toNat - 'A'.toNat + 10)
  else none

/-- Model of `hex.DecodeString`: decodes pairs of hex digits into bytes,
failing on an odd-length input or a non-hex character. -/
def hexDecodeString : List Char → Option (List Nat)
  | [] => some []
  | [_] => none
  | a :: b :: rest =>
    match hexDigitVal a, hexDigitVal b, hexDecodeString rest with
    | some x, some y, some tail => some ((16 * x + y) :: tail)
    | _, _, _ => none

/-- Constant `defaultMaxRetries` from src/vault/vault.go. -/
def defaultMaxRetries : Nat := 3

/-- One HTTP exchange with the Vault server, as seen by `SignMessage`: the
status code, the raw response body (echoed into error messages), and the
result of `json.Unmarshal` into `SignMessageResponse` (`none` when
unmarshalling fails, otherwise the `data.signature` field, which is the
empty string when the field is absent). -/
structure VaultResponse where
  status : Nat
  body : String
  signed : Option String

/-- Outcome of `SignMessage`: a signature, a returned error, the
cancellation outcome (`ctx.Err()` returned from the `ctx.Done()` branch of
the backoff `select`), or a Go runtime panic. -/
inductive SignResult where
  | ok (sig : List Nat)
  | err (e : String)
  | cancelled
  | panicked (msg : String)
  deriving DecidableEq, Repr

/-- Observable trace of one `SignMessage` call: how many HTTP requests were
issued and which backoff waits ran to completion (in seconds, in order). -/
structure SignTrace where
  attempts : Nat
  waits : List Nat
  deriving DecidableEq, Repr

/-- The HTTP-200 tail of `SignMessage`: decode the hex signature after
stripping two prefix characters and return its first 64 bytes.  The Go
slice expressions `response.Data.Signed[2:]` and `signatureBytes[:64]`
panic when the value is too short, and the model records exactly that. -/
def decodeSignResponse (r : VaultResponse) : SignResult :=
  match r.signed with
  | none => .err ("failed to decode response, response body: " ++ r.body)
  | some signed =>
    let s := signed.toList
    if s.length < 2 then .panicked "slice bounds out of range"
    else
      match hexDecodeString (s.drop 2) with
      | none => .err ("failed to decode response, response body: " ++ r.body)
      | some signatureBytes =>
        if signatureBytes.length < 64 then .panicked "slice bounds out of range"
        else .ok (signatureBytes.take 64)

/-- The retry loop of `SignMessage` (`for attempt := 0; attempt <=
v.MaxRetries; attempt++`), with `fuel = maxRetries + 1 - attempt` making
the recursion structural.  Faithful to the source, the retry guard
compares `attempt` against the constant `defaultMaxRetries`, not against
the configured maximum.  `cancelDuringWait i` says whether the caller
context is (or becomes) cancelled during the backoff wait that follows
attempt `i`, in which case the `select` takes the `ctx.Done()` branch. -/
def signMessageLoop (resp : Nat → VaultResponse) (cancelDuringWait : Nat → Bool) :
    Nat → Nat → Nat → List Nat → SignResult × SignTrace
  | 0, _, atts, waits => (.err "max retries exceeded", ⟨atts, waits⟩)
  | fuel + 1, attempt, atts, waits =>
    let r := resp attempt
    if (r.status = 429 ∨ r.status = 503) ∧ attempt < defaultMaxRetries then
      if cancelDuringWait attempt then (.cancelled, ⟨atts + 1, waits⟩)
      else
        signMessageLoop resp cancelDuringWait fuel (attempt + 1) (atts + 1)
          (waits ++ [attempt + 1])
    else if r.status ≠ 200 then
      (.err ("unexpected status code: " ++ toString r.status ++
        ", response body: " ++ r.body), ⟨atts + 1, waits⟩)
    else (decodeSignResponse r, ⟨atts + 1, waits⟩)

/-- Embedding of `Vault.SignMessage` (src/vault/vault.go): argument checks,
then the retry loop, reported together with its observable trace. -/
def SignMessage (maxRetries : Nat) (resp : Nat → VaultResponse)
    (cancelDuringWait : Nat → Bool) (payload : List Nat) (address : List Char) :
    SignResult × SignTrace :=
  if payload.length ≠ 32 then (.err "payload must be 32 bytes", ⟨0, []⟩)
  else if address.length ≠ 42 then (.err "address must be 42 characters", ⟨0, []⟩)
  else signMessageLoop resp cancelDuringWait (maxRetries + 1) 0 0 []

/-- Embedding of `ProviderOption` (src/provider.go). -/
structure ProviderOption where
  signerAddress : List Char
  config : List (String × JsonVal)

/-- Embedding of `VaultProvider.Sign` (src/provider.go): reject an empty
signer address, then delegate to `Vault.SignMessage`. -/
def VaultProviderSign (maxRetries : Nat) (resp : Nat → VaultResponse)
    (cancelDuringWait : Nat → Bool) (payload : List Nat)
    (options : ProviderOption) : SignResult × SignTrace :=
  if options.signerAddress = [] then (.err "signer address is required", ⟨0, []⟩)
  else SignMessage maxRetries resp cancelDuringWait payload options.signerAddress

/-- Stated from the spec, for claim C3 only: a non-empty 42-character hex
string with a 0x prefix. -/
def specValidSignerAddress (s : List Char) : Bool :=
  !s.isEmpty && (s.length == 42) && (s.take 2 == ['0', 'x']) &&
    (s.drop 2).all (fun c => (hexDigitVal c).isSome)

/-- A 32-byte all-zero digest. -/
def zeroPayload32 : List Nat := List.replicate 32 0

/-- A 42-character address accepted by the length check. -/
def addr42 : List Char := List.replicate 42 '0'

/-- An oracle that answers HTTP 429 to every attempt. -/
def allBusyResp : Nat → VaultResponse := fun _ => ⟨429, "busy", some ""⟩

/-- An oracle that answers a terminal HTTP 400 to every attempt. -/
def terminal400Resp : Nat → VaultResponse := fun _ => ⟨400, "bad", some ""⟩

/-- C2: the retry guard in the source compares the attempt index against
the constant default (3) instead of the configured maximum, so with
maxRetries = 5 and every response HTTP 429, SignMessage stops at attempt
3 with a terminal unexpected-status error after 4 attempts and waits of
1, 2, 3 seconds — instead of retrying while the attempt index is below 5
and failing with the retry-exhausted error after 6 attempts. -/
theorem SignMessage_retry_guard_uses_constant :
    SignMessage 5 allBusyResp (fun _ => false) zeroPayload32 addr42 =
      (.err "unexpected status code: 429, response body: busy", ⟨4, [1, 2, 3]⟩) := by
  decide

/-- C3 counterexample: a 42-character signer address made of the letter z
is not a hex string and has no 0x prefix, yet Sign does not fail
immediately — it issues an HTTP request (one attempt reaches the
transport and its status decides the outcome). -/
theorem VaultProviderSign_no_hex_check :
    specValidSignerAddress (List.replicate 42 'z') = false ∧
    (VaultProviderSign 3 terminal400Resp (fun _ => false) zeroPayload32
      ⟨List.replicate 42 'z', []⟩).2.attempts = 1 := by
  decide

/-- C3 amended: Sign fails immediately, with an error and no HTTP request
issued, whenever the payload is not exactly 32 bytes, the signer address
is empty, or the signer address is not exactly 42 characters; hex content
and the 0x prefix are not validated. -/
theorem VaultProviderSign_invalid_arguments (maxRetries : Nat)
    (resp : Nat → VaultResponse) (cancelDuringWait : Nat → Bool)
    (payload : List Nat) (options : ProviderOption)
    (h : payload.length ≠ 32 ∨ options.signerAddress = [] ∨
      options.signerAddress.length ≠ 42) :
    (∃ e, (VaultProviderSign maxRetries resp cancelDuringWait payload options).1 =
      .err e) ∧
    (VaultProviderSign maxRetries resp cancelDuringWait payload options).2 =
      ⟨0, []⟩ := by
  unfold VaultProviderSign SignMessage
  by_cases ha : options.signerAddress = []
  · simp [ha]
  · rcases h with h | h | h
    · simp [ha, h]
    · exact absurd h ha
    · by_cases hp : payload.length ≠ 32
      · simp [ha, hp]
      · simp [ha, hp, h]

/-- Witness for the amended C3 at an empty payload. -/
theorem VaultProviderSign_invalid_arguments_witness :
    (∃ e, (VaultProviderSign 3 terminal400Resp (fun _ => false) []
      ⟨addr42, []⟩).1 = .err e) ∧
    (VaultProviderSign 3 terminal400Resp (fun _ => false) []
      ⟨addr42, []⟩).2 = ⟨0, []⟩ :=
  VaultProviderSign_invalid_arguments 3 terminal400Resp (fun _ => false) []
    ⟨addr42, []⟩ (Or.inl (by decide))

/-- An oracle answering HTTP 200 with an empty signature string. -/
def emptySig200Resp : Nat → VaultResponse := fun _ => ⟨200, "sig", some ""⟩

/-- An oracle answering HTTP 200 with a signature whose hex decoding is a
single byte. -/
def shortSig200Resp : Nat → VaultResponse := fun _ => ⟨200, "sig", some "0x00"⟩

/-- C9: on HTTP 200 with a well-formed JSON body, SignMessage panics
rather than returning an error when the signature field is the empty
string (the slice expression signed[2:] is out of range) and likewise
when the hex decoding yields fewer than 64 bytes (signatureBytes[:64] is
out of range). -/
theorem SignMessage_panics_on_short_signature :
    SignMessage 3 emptySig200Resp (fun _ => false) zeroPayload32 addr42 =
      (.panicked "slice bounds out of range", ⟨1, []⟩) ∧
    SignMessage 3 shortSig200Resp (fun _ => false) zeroPayload32 addr42 =
      (.panicked "slice bounds out of range", ⟨1, []⟩) := by
  decide

/-- Cancellation during the backoff wait after attempt `attempt + i`, with
all earlier waits completing: the loop returns the cancellation outcome
at once. -/
theorem signMessageLoop_cancelled (resp : Nat → VaultResponse)
    (cancelDuringWait : Nat → Bool) :
    ∀ (i fuel attempt atts : Nat) (waits : List Nat),
      i < fuel →
      (∀ j, j ≤ i → (resp (attempt + j)).status = 429 ∨
        (resp (attempt + j)).status = 503) →
      attempt + i < defaultMaxRetries →
      (∀ j, j < i → cancelDuringWait (attempt + j) = false) →
      cancelDuringWait (attempt + i) = true →
      signMessageLoop resp cancelDuringWait fuel attempt atts waits =
        (.cancelled,
          ⟨atts + i + 1, waits ++ (List.range i).map (fun j => attempt + j + 1)⟩) := by
  intro i
  induction i with
  | zero =>
    intro fuel attempt atts waits hfuel hstat hidx _ hc
    match fuel, hfuel with
    | fuel + 1, _ =>
      have h0 := hstat 0 (Nat.le_refl 0)
      simp only [Nat.add_zero] at h0 hidx hc
      have hcond : ((resp attempt).status = 429 ∨ (resp attempt).status = 503) ∧
          attempt < defaultMaxRetries := ⟨h0, hidx⟩
      simp [signMessageLoop, hcond, hc]
  | succ i ih =>
    intro fuel attempt atts waits hfuel hstat hidx hnc hc
    match fuel, hfuel with
    | fuel + 1, hfuel =>
      have h0 := hstat 0 (Nat.zero_le _)
      simp only [Nat.add_zero] at h0
      have hlt : attempt < defaultMaxRetries := by omega
      have hnc0 : cancelDuringWait attempt = false := by
        have := hnc 0 (Nat.succ_pos i)
        simpa using this
      have hcond : ((resp attempt).status = 429 ∨ (resp attempt).status = 503) ∧
          attempt < defaultMaxRetries := ⟨h0, hlt⟩
      have hstep :
          signMessageLoop resp cancelDuringWait (fuel + 1) attempt atts waits =
            signMessageLoop resp cancelDuringWait fuel (attempt + 1) (atts + 1)
              (waits ++ [attempt + 1]) := by
        simp [signMessageLoop, hcond, hnc0]
      rw [hstep,
        ih fuel (attempt + 1) (atts + 1) (waits ++ [attempt + 1]) (by omega)
          (fun j hj => by
            have := hstat (j + 1) (by omega)
            simpa [Nat.add_assoc, Nat.add_comm 1 j] using this)
          (by omega)
          (fun j hj => by
            have := hnc (j + 1) (by omega)
            simpa [Nat.add_assoc, Nat.add_comm 1 j] using this)
          (by
            have := hc
            simpa [Nat.add_assoc, Nat.add_comm 1 i] using this)]
      have hw : waits ++ [attempt + 1] ++
            List.map (fun j => attempt + 1 + j + 1) (List.range i) =
          waits ++ List.map (fun j => attempt + j + 1) (List.range (i + 1)) := by
        rw [List.append_assoc]
        refine congrArg (fun l => waits ++ l) ?_
        rw [List.range_succ_eq_map, List.map_cons, List.map_map,
          List.singleton_append]
        simp only [List.cons.injEq]
        constructor
        · simp
        · refine List.map_congr_left fun j _ => ?_
          show attempt + 1 + j + 1 = attempt + (j + 1) + 1
          omega
      simp only [Prod.mk.injEq, SignTrace.mk.injEq, true_and]
      exact ⟨by omega, hw⟩

/-- C8: with a valid payload and address, if every response up to attempt
i is retryable (429 or 503), every backoff wait before the i-th completes
uncancelled, and the caller context is cancelled during the backoff wait
that follows attempt i, then SignMessage returns the cancellation outcome
after exactly i + 1 HTTP attempts: the remaining retry loop does not run,
the completed waits are exactly 1, …, i seconds, and the interrupted
(i + 1)-second wait is not among them. -/
theorem SignMessage_cancelled_during_backoff (maxRetries : Nat)
    (resp : Nat → VaultResponse) (cancelDuringWait : Nat → Bool) (i : Nat)
    (payload : List Nat) (address : List Char)
    (hp : payload.length = 32) (ha : address.length = 42)
    (hstat : ∀ j, j ≤ i → (resp j).status = 429 ∨ (resp j).status = 503)
    (hidx : i < defaultMaxRetries) (hbudget : i ≤ maxRetries)
    (hnc : ∀ j, j < i → cancelDuringWait j = false)
    (hc : cancelDuringWait i = true) :
    SignMessage maxRetries resp cancelDuringWait payload address =
      (.cancelled, ⟨i + 1, (List.range i).map (fun j => j + 1)⟩) ∧
    (i + 1) ∉ (List.range i).map (fun j => j + 1) := by
  constructor
  · unfold SignMessage
    rw [if_neg (by omega), if_neg (by omega)]
    have := signMessageLoop_cancelled resp cancelDuringWait i (maxRetries + 1) 0 0 []
      (by omega) (fun j hj => by simpa using hstat j hj) (by simpa using hidx)
      (fun j hj => by simpa using hnc j hj) (by simpa using hc)
    simpa using this
  · intro hmem
    obtain ⟨j, hj, hje⟩ := List.mem_map.mp hmem
    have := List.mem_range.mp hj
    omega

/-- Witness for C8: cancellation during the very first backoff wait. -/
theorem SignMessage_cancelled_during_backoff_witness :
    SignMessage 3 allBusyResp (fun _ => true) zeroPayload32 addr42 =
      (.cancelled, ⟨1, []⟩) ∧
    1 ∉ ([] : List Nat) := by
  have h := SignMessage_cancelled_during_backoff 3 allBusyResp (fun _ => true) 0
    zeroPayload32 addr42 (by decide) (by decide)
    (fun j _ => Or.inl rfl) (by decide) (by decide)
    (fun j hj => absurd hj (Nat.not_lt_zero j)) rfl
  simpa using h

/-! ### Token service (src/auth.go, src/unnamed/part_001) -/

/-- Embedding of `VcClaims` (src/auth.go): issuer string and the
credentialSubject map extracted from a credential. -/
structure VcClaims where
  issuer : String
  credentialSubject : List (String × JsonVal)

/-- Embedding of `vp.PresentationContents` as populated by `CreateToken`
(field order as in src/unnamed/part_001). -/
structure PresentationContents (Cred : Type) where
  holder : List Char
  types : List String
  verifiableCredentials : List Cred
  context : List String

/-- The two fixed context URIs set by `CreateToken`. -/
def credentialsContextURIs : List String :=
  ["https://www.w3.org/ns/credentials/v2",
   "https://www.w3.org/ns/credentials/examples/v2"]

/-- The external credential/presentation codec together with the stdlib
pieces (`crypto/sha256`, `encoding/json`) the token service calls through
it.  `getVpData` models `Presentation.GetContents` followed by
`json.Unmarshal` into a string-keyed map, and `getCredContents` models
`Credential.GetContents` followed by the same unmarshalling; both fold the
two error sources of the source code into one. -/
structure Codec (Cred Pres Doc : Type) where
  parseCredential : String → Except String Cred
  newJWTPresentation : PresentationContents Cred → Except String Pres
  getSigningInput : Pres → Except String (List Nat)
  sha256 : List Nat → List Nat
  addCustomProof : Pres → List Nat → Except String Pres
  serialize : Pres → Except String Doc
  jsonMarshal : Doc → Except String String
  parseJWTPresentation : String → Except String Pres
  getVpData : Pres → Except String (List (String × JsonVal))
  getCredContents : Cred → Except String (List (String × JsonVal))

/-- The credential-parsing loop at the top of `CreateToken`: parse each
wire form, failing on the first invalid entry. -/
def parseCredentials {Cred Pres Doc : Type} (c : Codec Cred Pres Doc) :
    List String → Except String (List Cred)
  | [] => .ok []
  | vcJwt :: rest =>
    match c.parseCredential vcJwt with
    | .error e => .error e
    | .ok cred =>
      match parseCredentials c rest with
      | .error e => .error e
      | .ok creds => .ok (cred :: creds)

/-- Embedding of `CreateToken` (src/unnamed/part_001; src/auth.go differs
only in taking the provider options from the caller instead of deriving
them from the holder DID).  Besides the result, the model returns the
list of `provider.Sign` invocations (payload and options, in order) so
that call-count properties are statable. -/
def CreateToken {Cred Pres Doc : Type} (c : Codec Cred Pres Doc)
    (sign : List Nat → ProviderOption → Except String (List Nat))
    (vcsJwt : List String) (holderDid : List Char) :
    Except String String × List (List Nat × ProviderOption) :=
  match parseCredentials c vcsJwt with
  | .error e => (.error e, [])
  | .ok vcs =>
    match c.newJWTPresentation
        ⟨holderDid, ["VerifiablePresentation"], vcs, credentialsContextURIs⟩ with
    | .error e => (.error e, [])
    | .ok vpPresentation =>
      match c.getSigningInput vpPresentation with
      | .error e => (.error e, [])
      | .ok signData =>
        let hash := c.sha256 signData
        let opt : ProviderOption := ⟨extractAddressFromDID holderDid, []⟩
        match sign hash opt with
        | .error e => (.error e, [(hash, opt)])
        | .ok signature =>
          match c.addCustomProof vpPresentation signature with
          | .error e => (.error e, [(hash, opt)])
          | .ok proved =>
            match c.serialize proved with
            | .error e => (.error e, [(hash, opt)])
            | .ok document =>
              match c.jsonMarshal document with
              | .error e => (.error e, [(hash, opt)])
              | .ok documentBytes => (.ok documentBytes, [(hash, opt)])

/-- The per-credential loop of `VerifyToken`.  The unchecked Go type
assertions `vcItem.(string)`, `credContents["issuer"].(string)` and
`credContents["credentialSubject"].(map[string]interface)` panic when the
value is absent or of the wrong dynamic type, and the model records
exactly that. -/
def extractClaims {Cred Pres Doc : Type} (c : Codec Cred Pres Doc) :
    List JsonVal → GoSlice VcClaims → GoOutcome (GoSlice VcClaims)
  | [], vcClaimsList => .ok vcClaimsList
  | vcItem :: rest, vcClaimsList =>
    match vcItem with
    | .str vcStr =>
      match c.parseCredential vcStr with
      | .error e => .err e
      | .ok credential =>
        match c.getCredContents credential with
        | .error e => .err e
        | .ok credContents =>
          match mapLookup credContents "issuer" with
          | some (.str issuer) =>
            match mapLookup credContents "credentialSubject" with
            | some (.obj subj) =>
              extractClaims c rest (goAppend vcClaimsList ⟨issuer, subj⟩)
            | _ => .panicked "interface conversion: credentialSubject is not a map"
          | _ => .panicked "interface conversion: issuer is not a string"
    | _ => .panicked "interface conversion: credential entry is not a string"

/-- Embedding of `VerifyToken` (src/auth.go): parse and verify the token,
extract the `verifiableCredential` array, then run the claim-extraction
loop starting from the nil slice `var vcClaimsList []VcClaims`. -/
def VerifyToken {Cred Pres Doc : Type} (c : Codec Cred Pres Doc)
    (token : String) : GoOutcome (GoSlice VcClaims) :=
  match c.parseJWTPresentation token with
  | .error e => .err e
  | .ok vpPresentation =>
    match c.getVpData vpPresentation with
    | .error e => .err e
    | .ok vpData =>
      match mapLookup vpData "verifiableCredential" with
      | none => .err "no verifiableCredential found in VP"
      | some vcsRaw =>
        match vcsRaw with
        | .arr vcsArray => extractClaims c vcsArray goNilSlice
        | _ => .err "verifiableCredential is not an array"

/-- Coerce an optional JSON value to a string, when it is one. -/
def asString : Option JsonVal → Option String
  | some (JsonVal.str s) => some s
  | _ => none

/-- Coerce an optional JSON value to an object map, when it is one. -/
def asObj : Option JsonVal → Option (List (String × JsonVal))
  | some (JsonVal.obj m) => some m
  | _ => none

/-- The structured contents a credential wire form independently reports:
`ParseCredential` followed by `GetContents`, `none` when either fails. -/
def credContentsOf {Cred Pres Doc : Type} (c : Codec Cred Pres Doc)
    (vcJwt : String) : Option (List (String × JsonVal)) :=
  match c.parseCredential vcJwt with
  | .ok cred =>
    match c.getCredContents cred with
    | .ok m => some m
    | .error _ => none
  | .error _ => none

/-- The issuer string a credential wire form independently reports. -/
def reportedIssuer {Cred Pres Doc : Type} (c : Codec Cred Pres Doc)
    (vcJwt : String) : Option String :=
  asString ((credContentsOf c vcJwt).bind (fun m => mapLookup m "issuer"))

/-- The credentialSubject map a credential wire form independently
reports. -/
def reportedSubject {Cred Pres Doc : Type} (c : Codec Cred Pres Doc)
    (vcJwt : String) : Option (List (String × JsonVal)) :=
  asObj ((credContentsOf c vcJwt).bind (fun m => mapLookup m "credentialSubject"))

theorem asString_eq_some {o : Option JsonVal} {s : String}
    (h : asString o = some s) : o = some (JsonVal.str s) := by
  cases o with
  | none => simp [asString] at h
  | some v =>
    cases v with
    | str t => simpa [asString] using h
    | num n => simp [asString] at h
    | bool b => simp [asString] at h
    | null => simp [asString] at h
    | arr xs => simp [asString] at h
    | obj m => simp [asString] at h

theorem asObj_eq_some {o : Option JsonVal} {m : List (String × JsonVal)}
    (h : asObj o = some m) : o = some (JsonVal.obj m) := by
  cases o with
  | none => simp [asObj] at h
  | some v =>
    cases v with
    | str t => simp [asObj] at h
    | num n => simp [asObj] at h
    | bool b => simp [asObj] at h
    | null => simp [asObj] at h
    | arr xs => simp [asObj] at h
    | obj m2 => simpa [asObj] using h

theorem credContentsOf_eq_some {Cred Pres Doc : Type} {c : Codec Cred Pres Doc}
    {vcJwt : String} {m : List (String × JsonVal)}
    (h : credContentsOf c vcJwt = some m) :
    ∃ cred, c.parseCredential vcJwt = .ok cred ∧ c.getCredContents cred = .ok m := by
  unfold credContentsOf at h
  cases hp : c.parseCredential vcJwt with
  | error e => simp only [hp] at h; cases h
  | ok cred =>
    simp only [hp] at h
    cases hm : c.getCredContents cred with
    | error e => simp only [hm] at h; cases h
    | ok m2 =>
      simp only [hm, Option.some.injEq] at h
      subst h
      exact ⟨cred, rfl, hm⟩

/-- What each extracted claim is, phrased through the independent
per-credential reports. -/
def reportedClaim {Cred Pres Doc : Type} (c : Codec Cred Pres Doc)
    (vcJwt : String) : VcClaims :=
  ⟨(reportedIssuer c vcJwt).getD "", (reportedSubject c vcJwt).getD []⟩

/-- The extraction loop, run over string entries that all report an issuer
and a subject, appends exactly the reported claims in order. -/
theorem extractClaims_ok {Cred Pres Doc : Type} (c : Codec Cred Pres Doc) :
    ∀ (jwts : List String) (acc : GoSlice VcClaims),
      (∀ jwt ∈ jwts, ∃ iss subj, reportedIssuer c jwt = some iss ∧
        reportedSubject c jwt = some subj) →
      ∃ claims, extractClaims c (jwts.map JsonVal.str) acc = .ok claims ∧
        claims.elems = acc.elems ++ jwts.map (reportedClaim c)
  | [], acc, _ => ⟨acc, by simp [extractClaims]⟩
  | jwt :: rest, acc, hrep => by
    obtain ⟨iss, subj, hi, hs⟩ := hrep jwt (List.mem_cons_self jwt rest)
    obtain ⟨mc, hbind⟩ := Option.bind_eq_some.mp (asString_eq_some hi)
    obtain ⟨hcc, hlook⟩ := hbind
    obtain ⟨cred, hparse, hget⟩ := credContentsOf_eq_some hcc
    obtain ⟨mc2, hbind2⟩ := Option.bind_eq_some.mp (asObj_eq_some hs)
    obtain ⟨hcc2, hlook2⟩ := hbind2
    have hmc : mc2 = mc := by rw [hcc] at hcc2; injection hcc2 with h; exact h.symm
    subst hmc
    obtain ⟨claims, hrun, helems⟩ := extractClaims_ok c rest
      (goAppend acc ⟨iss, subj⟩)
      (fun j hj => hrep j (List.mem_cons_of_mem _ hj))
    refine ⟨claims, ?_, ?_⟩
    · simpa [extractClaims, hparse, hget, hlook, hlook2] using hrun
    · rw [helems]
      have hclaim : reportedClaim c jwt = ⟨iss, subj⟩ := by
        simp [reportedClaim, hi, hs]
      simp [goAppend, hclaim]

/-- C5 amended: VerifyToken on a valid token whose embedded
verifiableCredential list is empty returns the nil (hence empty) claim
slice and no error. -/
theorem VerifyToken_empty_list {Cred Pres Doc : Type} (c : Codec Cred Pres Doc)
    (token : String) (vpPres : Pres) (vpData : List (String × JsonVal))
    (h1 : c.parseJWTPresentation token = .ok vpPres)
    (h2 : c.getVpData vpPres = .ok vpData)
    (h3 : mapLookup vpData "verifiableCredential" = some (.arr [])) :
    VerifyToken c token = .ok goNilSlice := by
  simp [VerifyToken, h1, h2, h3, extractClaims]

/-- A codec under which any token verifies and carries an empty
verifiableCredential list. -/
def emptyListCodec : Codec Unit Unit Unit :=
  ⟨fun _ => .error "no credential", fun _ => .ok (), fun _ => .ok [],
   fun _ => List.replicate 32 0, fun _ _ => .ok (), fun _ => .ok (),
   fun _ => .ok "token", fun _ => .ok (),
   fun _ => .ok [("verifiableCredential", JsonVal.arr [])],
   fun _ => .error "no contents"⟩

/-- C5 counterexample: on a token that verifies with an empty embedded
credential list, VerifyToken returns the Go nil slice (the accumulator
`var vcClaimsList []VcClaims` is never appended to), not a non-nil empty
slice as the claim states. -/
theorem VerifyToken_empty_returns_nil :
    VerifyToken emptyListCodec "token" = .ok goNilSlice ∧
    (goNilSlice : GoSlice VcClaims).isNil = true := ⟨rfl, rfl⟩

/-- Witness for the amended C5. -/
theorem VerifyToken_empty_list_witness :
    VerifyToken emptyListCodec "tok" = .ok goNilSlice :=
  VerifyToken_empty_list emptyListCodec "tok" ()
    [("verifiableCredential", JsonVal.arr [])] rfl rfl rfl

/-- A codec whose single embedded credential has contents with no issuer
field (only a credentialSubject map). -/
def missingIssuerCodec : Codec Unit Unit Unit :=
  ⟨fun _ => .ok (), fun _ => .ok (), fun _ => .ok [],
   fun _ => List.replicate 32 0, fun _ _ => .ok (), fun _ => .ok (),
   fun _ => .ok "token", fun _ => .ok (),
   fun _ => .ok [("verifiableCredential", JsonVal.arr [JsonVal.str "vc1"])],
   fun _ => .ok [("credentialSubject", JsonVal.obj [])]⟩

/-- C4: on a verified presentation whose credential contents lack a string
issuer field, VerifyToken panics on the unchecked type assertion
`credContents["issuer"].(string)` instead of returning a claim-extraction
error value to the caller. -/
theorem VerifyToken_panics_on_missing_issuer :
    VerifyToken missingIssuerCodec "token" =
      .panicked "interface conversion: issuer is not a string" := rfl

/-- A codec whose verified presentation embeds a non-string credential
entry (a JSON number). -/
def nonStringEntryCodec : Codec Unit Unit Unit :=
  ⟨fun _ => .ok (), fun _ => .ok (), fun _ => .ok [],
   fun _ => List.replicate 32 0, fun _ _ => .ok (), fun _ => .ok (),
   fun _ => .ok "token", fun _ => .ok (),
   fun _ => .ok [("verifiableCredential", JsonVal.arr [JsonVal.num 42])],
   fun _ => .ok []⟩

/-- C10: on a verified presentation whose verifiableCredential list holds
a non-string element, VerifyToken panics on the unchecked type assertion
`vcItem.(string)` instead of returning an error value. -/
theorem VerifyToken_panics_on_non_string_entry :
    VerifyToken nonStringEntryCodec "token" =
      .panicked "interface conversion: credential entry is not a string" := rfl

/-- C6: on every CreateToken call that reaches the signing step (the
credentials parse, the presentation builds, and a canonical signing input
is produced), the provider's Sign is invoked exactly once, with payload
equal to the SHA-256 digest of the signing input (32 bytes under the
SHA-256 length hypothesis — never the raw input) and with the signer
address derived from the holder DID as the substring after its last
colon; and when Sign fails, CreateToken fails with that same error. -/
theorem CreateToken_signs_digest_once {Cred Pres Doc : Type}
    (c : Codec Cred Pres Doc)
    (sign : List Nat → ProviderOption → Except String (List Nat))
    (vcsJwt : List String) (holderDid : List Char)
    (vcs : List Cred) (vpPres : Pres) (signData : List Nat)
    (h1 : parseCredentials c vcsJwt = .ok vcs)
    (h2 : c.newJWTPresentation
      ⟨holderDid, ["VerifiablePresentation"], vcs, credentialsContextURIs⟩ =
      .ok vpPres)
    (h3 : c.getSigningInput vpPres = .ok signData)
    (hsha : (c.sha256 signData).length = 32) :
    (CreateToken c sign vcsJwt holderDid).2 =
      [(c.sha256 signData, ⟨extractAddressFromDID holderDid, []⟩)] ∧
    (c.sha256 signData).length = 32 ∧
    (∀ e, sign (c.sha256 signData) ⟨extractAddressFromDID holderDid, []⟩ =
        .error e →
      (CreateToken c sign vcsJwt holderDid).1 = .error e) := by
  refine ⟨?_, hsha, ?_⟩
  · unfold CreateToken
    simp only [h1, h2, h3]
    cases hs : sign (c.sha256 signData) ⟨extractAddressFromDID holderDid, []⟩ with
    | error e => simp [hs]
    | ok sig =>
      cases hp : c.addCustomProof vpPres sig with
      | error e => simp [hs, hp]
      | ok proved =>
        cases hser : c.serialize proved with
        | error e => simp [hs, hp, hser]
        | ok doc =>
          cases hm : c.jsonMarshal doc with
          | error e => simp [hs, hp, hser, hm]
          | ok s2 => simp [hs, hp, hser, hm]
  · intro e he
    unfold CreateToken
    simp only [h1, h2, h3, he]

/-- A concrete round-tripping codec over string credentials: a wire token
is a single credential wire form, and a credential reports itself as its
issuer. -/
def listCodec : Codec String (List String) (List String) :=
  ⟨fun s => .ok s,
   fun pc => .ok pc.verifiableCredentials,
   fun _ => .ok [],
   fun _ => List.replicate 32 0,
   fun p _ => .ok p,
   fun p => .ok p,
   fun doc => .ok (String.intercalate "," doc),
   fun s => .ok [s],
   fun p => .ok [("verifiableCredential", JsonVal.arr (p.map JsonVal.str))],
   fun s => .ok [("issuer", JsonVal.str s),
     ("credentialSubject", JsonVal.obj [("id", JsonVal.str s)])]⟩

/-- Witness for C6 with the concrete codec, one credential and an
always-succeeding signer. -/
theorem CreateToken_signs_digest_once_witness :
    (CreateToken listCodec (fun p _ => .ok p) ["a"] ("did:x:0xabc".toList)).2 =
      [(listCodec.sha256 [], ⟨extractAddressFromDID ("did:x:0xabc".toList), []⟩)] ∧
    (listCodec.sha256 []).length = 32 ∧
    (∀ e, (fun (p : List Nat) (_ : ProviderOption) =>
        (.ok p : Except String (List Nat))) (listCodec.sha256 [])
        ⟨extractAddressFromDID ("did:x:0xabc".toList), []⟩ = .error e →
      (CreateToken listCodec (fun p _ => .ok p) ["a"]
        ("did:x:0xabc".toList)).1 = .error e) :=
  CreateToken_signs_digest_once listCodec (fun p _ => .ok p) ["a"]
    ("did:x:0xabc".toList) ["a"] ["a"] [] rfl rfl rfl (by decide)

/-- C1: for every non-empty credential wire-form list and holder identity,
if CreateToken succeeds with token t, the codec round-trips (parsing t
verifies and the verifiableCredential field of its contents lists exactly
the input wire forms, in order), and every input credential independently
reports a string issuer and a map credentialSubject through
ParseCredential and GetContents, then VerifyToken on t returns one claim
per input credential, in input order, whose issuer and subject equal the
i-th input credential's independent report. -/
theorem CreateToken_VerifyToken_roundtrip {Cred Pres Doc : Type}
    (c : Codec Cred Pres Doc)
    (sign : List Nat → ProviderOption → Except String (List Nat))
    (vcsJwt : List String) (holderDid : List Char) (t : String)
    (vpPres : Pres) (vpData : List (String × JsonVal))
    (hne : vcsJwt ≠ [])
    (hcreate : (CreateToken c sign vcsJwt holderDid).1 = .ok t)
    (h1 : c.parseJWTPresentation t = .ok vpPres)
    (h2 : c.getVpData vpPres = .ok vpData)
    (h3 : mapLookup vpData "verifiableCredential" =
      some (JsonVal.arr (vcsJwt.map JsonVal.str)))
    (hrep : ∀ jwt ∈ vcsJwt, ∃ iss subj, reportedIssuer c jwt = some iss ∧
      reportedSubject c jwt = some subj) :
    ∃ claims, VerifyToken c t = .ok claims ∧
      claims.elems.length = vcsJwt.length ∧
      ∀ i (hi : i < vcsJwt.length) (hj : i < claims.elems.length),
        reportedIssuer c (vcsJwt.get ⟨i, hi⟩) =
          some ((claims.elems.get ⟨i, hj⟩).issuer) ∧
        reportedSubject c (vcsJwt.get ⟨i, hi⟩) =
          some ((claims.elems.get ⟨i, hj⟩).credentialSubject) := by
  obtain ⟨claims, hrun, helems⟩ := extractClaims_ok c vcsJwt goNilSlice hrep
  have hel : claims.elems = vcsJwt.map (reportedClaim c) := by
    rw [helems]; simp [goNilSlice]
  refine ⟨claims, ?_, ?_, ?_⟩
  · simp [VerifyToken, h1, h2, h3, hrun]
  · rw [hel]; simp
  · intro i hi hj
    simp only [List.get_eq_getElem]
    obtain ⟨iss, subj, hiss, hsubj⟩ :=
      hrep (vcsJwt.get ⟨i, hi⟩) (vcsJwt.get_mem _ _)
    rw [List.get_eq_getElem] at hiss hsubj
    have hget : claims.elems.get ⟨i, hj⟩ = reportedClaim c (vcsJwt.get ⟨i, hi⟩) := by
      rw [List.get_eq_getElem, List.get_eq_getElem]
      simp only [hel, List.getElem_map]
    rw [List.get_eq_getElem, List.get_eq_getElem] at hget
    rw [hget]
    constructor
    · rw [hiss]
      simp [reportedClaim, hiss]
    · rw [hsubj]
      simp [reportedClaim, hsubj]

/-- Witness for C1 with the concrete round-tripping codec and a single
credential. -/
theorem CreateToken_VerifyToken_roundtrip_witness :
    ∃ claims, VerifyToken listCodec "a" = .ok claims ∧
      claims.elems.length = (["a"] : List String).length ∧
      ∀ i (hi : i < (["a"] : List String).length) (hj : i < claims.elems.length),
        reportedIssuer listCodec ((["a"] : List String).get ⟨i, hi⟩) =
          some ((claims.elems.get ⟨i, hj⟩).issuer) ∧
        reportedSubject listCodec ((["a"] : List String).get ⟨i, hi⟩) =
          some ((claims.elems.get ⟨i, hj⟩).credentialSubject) :=
  CreateToken_VerifyToken_roundtrip listCodec (fun p _ => .ok p) ["a"]
    ("did:x:0xabc".toList) "a" ["a"]
    [("verifiableCredential", JsonVal.arr [JsonVal.str "a"])]
    (by decide) rfl rfl rfl rfl
    (fun jwt _ => ⟨jwt, [("id", JsonVal.str jwt)], rfl, rfl⟩)

end GoVcAuth
